import Mathlib

/-!
Shallow embedding of the `uuid` Go package (`pkg/uuid/uuid.go`).

A UUID value (`[16]byte` in the source) is modelled as a `List Nat` of
length 16 whose members are below 256.  Strings are modelled as `List Char`.
Machine-level byte truncation (`byte(x)` in Go) is written `x % 256`; the
bitwise operators `&`, `|`, `>>`, `<<` of the source are `&&&`, `|||`,
`>>>`, `<<<` on `Nat`.  Fallible calls into the external random source
(`crypto/rand.Read`) are modelled by passing the outcome of the read as an
explicit `Except` argument.
-/

set_option maxRecDepth 16384

namespace UUIDSpec

/-- The lowercase hexadecimal digit table used by Go's `%x` formatting verb. -/
def hexCharList : List Char := "0123456789abcdef".toList

/-- Digit `n` of the lowercase hex table (out-of-range indices never occur for
byte nibbles; `getD` supplies a default). -/
def hexDigit (n : Nat) : Char := hexCharList.getD n '0'

/-- Embedding of `encoding/hex.fromHexChar`: maps a character to its hex value,
accepting `0-9`, `a-f` and `A-F`, and rejects everything else. -/
def fromHexChar (c : Char) : Option Nat :=
  if '0' ≤ c ∧ c ≤ '9' then some (c.toNat - '0'.toNat)
  else if 'a' ≤ c ∧ c ≤ 'f' then some (c.toNat - 'a'.toNat + 10)
  else if 'A' ≤ c ∧ c ≤ 'F' then some (c.toNat - 'A'.toNat + 10)
  else none

/-- Embedding of `encoding/hex.DecodeString`: consumes the input two characters
at a time, producing one byte `hi<<4 | lo` per pair; fails on a non-hex
character or on odd length. -/
def hexDecode : List Char → Option (List Nat)
  | [] => some []
  | [_] => none
  | c₁ :: c₂ :: rest =>
    match fromHexChar c₁, fromHexChar c₂, hexDecode rest with
    | some hi, some lo, some bs => some (((hi <<< 4) ||| lo) :: bs)
    | _, _, _ => none

/-- One byte rendered by Go's `%x`: high nibble first, then low nibble. -/
def encodeByte (b : Nat) : List Char := [hexDigit (b >>> 4), hexDigit (b &&& 0xf)]

/-- A byte slice rendered by Go's `%x`: the bytes' hex pairs, concatenated. -/
def hexEncode : List Nat → List Char
  | [] => []
  | b :: bs => encodeByte b ++ hexEncode bs

/-- The two `FormatError` shapes produced by `Parse`:
`invalid UUID length: %d` and `invalid UUID format: %v`. -/
inductive ParseErr where
  | invalidLength (n : Nat)
  | invalidFormat
deriving DecidableEq

/-- The three `strings.ReplaceAll(s, pat, "")` calls at the start of `Parse`.
Replacing a single-character pattern by the empty string removes every
occurrence of that character, i.e. filters it out. -/
def stripped (s : List Char) : List Char :=
  ((s.filter (fun c => c != '-')).filter (fun c => c != '{')).filter (fun c => c != '}')

/-- Embedding of `Parse`: strip `-`, `{`, `}`; require exactly 32 remaining
characters; hex-decode them into the 16 result bytes. -/
def Parse (s : List Char) : Except ParseErr (List Nat) :=
  if (stripped s).length ≠ 32 then .error (.invalidLength (stripped s).length)
  else
    match hexDecode (stripped s) with
    | some bs => .ok bs
    | none => .error .invalidFormat

/-- Embedding of `UUID.String`: `fmt.Sprintf("%x-%x-%x-%x-%x", u[:4], u[4:6],
u[6:8], u[8:10], u[10:])`. -/
def uuidString (u : List Nat) : List Char :=
  hexEncode (u.take 4) ++ ['-'] ++ hexEncode ((u.drop 4).take 2) ++ ['-'] ++
    hexEncode ((u.drop 6).take 2) ++ ['-'] ++ hexEncode ((u.drop 8).take 2) ++ ['-'] ++
    hexEncode (u.drop 10)

/-- `VersionUnknown` of the source's `Version` constant block. -/
def VersionUnknown : Nat := 0

/-- `VersionTimeBased` of the source's `Version` constant block. -/
def VersionTimeBased : Nat := 1

/-- `VersionDCESecurity` of the source's `Version` constant block. -/
def VersionDCESecurity : Nat := 2

/-- `VersionNameBasedMD5` of the source's `Version` constant block. -/
def VersionNameBasedMD5 : Nat := 3

/-- `VersionRandom` of the source's `Version` constant block. -/
def VersionRandom : Nat := 4

/-- `VersionNameBasedSHA1` of the source's `Version` constant block. -/
def VersionNameBasedSHA1 : Nat := 5

/-- `VariantNCS` of the source's `Variant` constant block. -/
def VariantNCS : Nat := 0

/-- `VariantRFC4122` of the source's `Variant` constant block. -/
def VariantRFC4122 : Nat := 1

/-- `VariantMicrosoft` of the source's `Variant` constant block. -/
def VariantMicrosoft : Nat := 2

/-- `VariantFuture` of the source's `Variant` constant block. -/
def VariantFuture : Nat := 3

/-- `Nil`, the all-zero UUID. -/
def NilUUID : List Nat := List.replicate 16 0

/-- Embedding of `UUID.Version`: the high nibble of byte 6 (`u[6] >> 4`). -/
def Version (u : List Nat) : Nat := (u.getD 6 0) >>> 4

/-- Embedding of `UUID.Variant`: the bit-pattern switch on byte 8. -/
def Variant (u : List Nat) : Nat :=
  if (u.getD 8 0) &&& 0x80 = 0x00 then VariantNCS
  else if (u.getD 8 0) &&& 0xc0 = 0x80 then VariantRFC4122
  else if (u.getD 8 0) &&& 0xe0 = 0xc0 then VariantMicrosoft
  else VariantFuture

/-- Embedding of `UUID.Compare`: the `for i := 0; i < 16; i++` loop comparing
byte by byte, returning at the first strict difference. -/
def Compare : List Nat → List Nat → Int
  | x :: xs, y :: ys =>
    if x < y then -1
    else if x > y then 1
    else Compare xs ys
  | _, _ => 0

/-- The error returned by a failing `crypto/rand.Read`; the payload keeps
distinct failures distinguishable so that propagation is literal. -/
inductive RandErr where
  | exhausted (code : Nat)
deriving DecidableEq

/-- The pure tail of `generateV4`: version and variant stamping over the 16
random bytes (`uuid[6] = (uuid[6] & 0x0f) | 0x40`, then
`uuid[8] = (uuid[8] & 0x3f) | 0x80`). -/
def generateV4 (r : List Nat) : List Nat :=
  let u := r.set 6 (((r.getD 6 0) &&& 0x0f) ||| 0x40)
  u.set 8 (((u.getD 8 0) &&& 0x3f) ||| 0x80)

/-- Embedding of `generateV4` including the fallible `rand.Read` call: the
read's outcome is the argument.  On failure Go returns the zero-initialised
`var uuid UUID` together with the error (the buffer's contents after a failed
read are modelled as the zero value it was declared with). -/
def generateV4Go (read : Except RandErr (List Nat)) : List Nat × Option RandErr :=
  match read with
  | .error e => (NilUUID, some e)
  | .ok r => (generateV4 r, none)

/-- The pure tail of `generateV1`: the timestamp bytes and the version and
variant stamping, applied over the 16 random baseline bytes in source order. -/
def generateV1 (r : List Nat) (now : Nat) : List Nat :=
  let u := r.set 0 (now % 256)
  let u := u.set 1 ((now >>> 8) % 256)
  let u := u.set 2 ((now >>> 16) % 256)
  let u := u.set 3 ((now >>> 24) % 256)
  let u := u.set 4 ((now >>> 32) % 256)
  let u := u.set 5 ((now >>> 40) % 256)
  let u := u.set 6 (((now >>> 48) % 256) &&& 0x0f)
  let u := u.set 6 ((u.getD 6 0) ||| 0x10)
  u.set 8 (((u.getD 8 0) &&& 0x3f) ||| 0x80)

/-- Embedding of `generateV1` including the fallible `rand.Read` call and the
`time.Now().UnixNano()` timestamp, both passed as arguments. -/
def generateV1Go (read : Except RandErr (List Nat)) (now : Nat) : List Nat × Option RandErr :=
  match read with
  | .error e => (NilUUID, some e)
  | .ok r => (generateV1 r now, none)

/-- Embedding of `New`: `uuid, _ := generateV4(); return uuid` — the error is
discarded and only the value is returned. -/
def New (read : Except RandErr (List Nat)) : List Nat :=
  (generateV4Go read).1

/-- Embedding of `NewV4`: returns `generateV4()` unchanged. -/
def NewV4 (read : Except RandErr (List Nat)) : List Nat × Option RandErr :=
  generateV4Go read

/-- Embedding of `NewV1`: returns `generateV1()` unchanged. -/
def NewV1 (read : Except RandErr (List Nat)) (now : Nat) : List Nat × Option RandErr :=
  generateV1Go read now

/-- The `UUIDGenerator` struct: it holds only the requested version. -/
structure UUIDGenerator where
  version : Nat
deriving DecidableEq

/-- Embedding of `NewGenerator`. -/
def NewGenerator (version : Nat) : UUIDGenerator := ⟨version⟩

/-- Embedding of `UUIDGenerator.Generate`: the `switch g.version` dispatch —
`VersionRandom` and the `default` arm call `generateV4`, `VersionTimeBased`
calls `generateV1`. -/
def UUIDGenerator.Generate (g : UUIDGenerator) (read : Except RandErr (List Nat))
    (now : Nat) : List Nat × Option RandErr :=
  if g.version = VersionRandom then generateV4Go read
  else if g.version = VersionTimeBased then generateV1Go read now
  else generateV4Go read

/-- The shapes a `database/sql` driver can hand to `Scan`: Go's `nil`, a
`string`, a `[]byte`, or a value of any other dynamic type. -/
inductive ScanInput where
  | nullValue
  | str (s : List Char)
  | bytes (b : List Nat)
  | other
deriving DecidableEq

/-- The errors `Scan` can return: a `Parse` failure surfaced unchanged, or the
`cannot scan %T into UUID` error for an unsupported dynamic type. -/
inductive ScanErr where
  | format (e : ParseErr)
  | unsupported
deriving DecidableEq

/-- Go's `string(v)` conversion of a byte slice: each byte becomes the
character with that code point. -/
def bytesToChars (b : List Nat) : List Char := b.map Char.ofNat

/-- Embedding of `UUID.Scan`.  The first component is the returned error
(`none` for a `nil` Go error); the second is the receiver's bytes after the
call, which start as `u` and are only overwritten on success. -/
def Scan (u : List Nat) (value : ScanInput) : Option ScanErr × List Nat :=
  match value with
  | .nullValue => (none, NilUUID)
  | .str s =>
    match Parse s with
    | .error e => (some (.format e), u)
    | .ok parsed => (none, parsed)
  | .bytes b =>
    if b.length = 16 then (none, b)
    else
      match Parse (bytesToChars b) with
      | .error e => (some (.format e), u)
      | .ok parsed => (none, parsed)
  | .other => (some .unsupported, u)

/-- Failure of the `json.Unmarshal(data, &s)` step of `UnmarshalJSON` (the
input is not a JSON string). -/
inductive JSONErr where
  | notAString
deriving DecidableEq

/-- The errors the unmarshalling entry points can return. -/
inductive UnmarshalErr where
  | json (e : JSONErr)
  | format (e : ParseErr)
deriving DecidableEq

/-- Embedding of `UUID.UnmarshalJSON`.  The external `json.Unmarshal` into a
string is modelled by its outcome `data`; on success `Parse` runs and the
receiver is assigned only when it succeeds. -/
def UnmarshalJSON (u : List Nat) (data : Except JSONErr (List Char)) :
    Option UnmarshalErr × List Nat :=
  match data with
  | .error e => (some (.json e), u)
  | .ok s =>
    match Parse s with
    | .error e => (some (.format e), u)
    | .ok parsed => (none, parsed)

/-- Embedding of `UUID.UnmarshalText`: `Parse(string(text))`, assigning the
receiver only on success. -/
def UnmarshalText (u : List Nat) (text : List Char) : Option UnmarshalErr × List Nat :=
  match Parse text with
  | .error e => (some (.format e), u)
  | .ok parsed => (none, parsed)

/-! ### Codec lemmas -/

lemma hexCharList_length : hexCharList.length = 16 := by decide

lemma hexDigit_mem (n : Nat) : hexDigit n ∈ hexCharList := by
  by_cases h : n < 16
  · have h16 : ∀ m, m < 16 → hexCharList.getD m '0' ∈ hexCharList := by decide
    exact h16 n h
  · unfold hexDigit
    rw [List.getD_eq_default]
    · decide
    · rw [hexCharList_length]; omega

lemma mem_hexEncode {c : Char} : ∀ {bs : List Nat}, c ∈ hexEncode bs → c ∈ hexCharList := by
  intro bs
  induction bs with
  | nil => intro h; simp [hexEncode] at h
  | cons b bs ih =>
    intro h
    simp only [hexEncode, encodeByte, List.cons_append, List.mem_cons, List.nil_append] at h
    rcases h with h | h | h
    · exact h ▸ hexDigit_mem _
    · exact h ▸ hexDigit_mem _
    · exact ih h

lemma hexEncode_append (a b : List Nat) :
    hexEncode (a ++ b) = hexEncode a ++ hexEncode b := by
  induction a with
  | nil => simp [hexEncode]
  | cons x xs ih => simp [hexEncode, ih]

lemma hexEncode_length (bs : List Nat) : (hexEncode bs).length = 2 * bs.length := by
  induction bs with
  | nil => simp [hexEncode]
  | cons b bs ih => simp [hexEncode, encodeByte, ih]; omega

lemma hexChar_not_sep : ∀ c ∈ hexCharList,
    (c != '-') = true ∧ (c != '{') = true ∧ (c != '}') = true := by decide

lemma stripped_append (a b : List Char) :
    stripped (a ++ b) = stripped a ++ stripped b := by
  simp [stripped, List.filter_append]

lemma stripped_hexEncode (bs : List Nat) : stripped (hexEncode bs) = hexEncode bs := by
  have h1 : (hexEncode bs).filter (fun c => c != '-') = hexEncode bs :=
    List.filter_eq_self.mpr (fun c hc => (hexChar_not_sep c (mem_hexEncode hc)).1)
  have h2 : (hexEncode bs).filter (fun c => c != '{') = hexEncode bs :=
    List.filter_eq_self.mpr (fun c hc => (hexChar_not_sep c (mem_hexEncode hc)).2.1)
  have h3 : (hexEncode bs).filter (fun c => c != '}') = hexEncode bs :=
    List.filter_eq_self.mpr (fun c hc => (hexChar_not_sep c (mem_hexEncode hc)).2.2)
  unfold stripped
  rw [h1, h2, h3]

lemma stripped_dash : stripped ['-'] = [] := by decide

lemma take_drop_reassemble (v : List Nat) :
    v.take 4 ++ ((v.drop 4).take 2 ++ ((v.drop 6).take 2 ++ ((v.drop 8).take 2 ++ v.drop 10))) =
      v := by
  have h10 : v.drop 10 = (v.drop 8).drop 2 := by
    rw [List.drop_drop]
  have h8 : (v.drop 8).take 2 ++ v.drop 10 = v.drop 8 := by
    rw [h10, List.take_append_drop]
  have hd8 : v.drop 8 = (v.drop 6).drop 2 := by
    rw [List.drop_drop]
  have h6 : (v.drop 6).take 2 ++ v.drop 8 = v.drop 6 := by
    rw [hd8, List.take_append_drop]
  have hd6 : v.drop 6 = (v.drop 4).drop 2 := by
    rw [List.drop_drop]
  have h4 : (v.drop 4).take 2 ++ v.drop 6 = v.drop 4 := by
    rw [hd6, List.take_append_drop]
  rw [h8, h6, h4, List.take_append_drop]

lemma stripped_uuidString (v : List Nat) : stripped (uuidString v) = hexEncode v := by
  unfold uuidString
  simp only [stripped_append, stripped_hexEncode, stripped_dash, List.nil_append,
    List.append_assoc, List.append_nil]
  rw [← hexEncode_append, ← hexEncode_append, ← hexEncode_append, ← hexEncode_append,
    take_drop_reassemble]

lemma byte_roundtrip : ∀ b, b < 256 →
    fromHexChar (hexDigit (b >>> 4)) = some (b >>> 4) ∧
    fromHexChar (hexDigit (b &&& 15)) = some (b &&& 15) ∧
    (((b >>> 4) <<< 4) ||| (b &&& 15)) = b := by decide

lemma hexDecode_hexEncode (v : List Nat) (hb : ∀ b ∈ v, b < 256) :
    hexDecode (hexEncode v) = some v := by
  induction v with
  | nil => rfl
  | cons b bs ih =>
    have hb0 : b < 256 := hb b (List.mem_cons_self b bs)
    obtain ⟨h1, h2, h3⟩ := byte_roundtrip b hb0
    have ih' := ih (fun x hx => hb x (List.mem_cons_of_mem _ hx))
    simp [hexEncode, encodeByte, hexDecode, h1, h2, ih', h3]

lemma hexDecode_none_of_bad : ∀ t : List Char, (∃ c ∈ t, fromHexChar c = none) →
    hexDecode t = none := by
  intro t
  induction t using hexDecode.induct with
  | case1 => intro h; simp at h
  | case2 c => intro _; rfl
  | case3 c₁ c₂ rest hi lo bs hdec hfc2 hfc1 ih =>
    intro h
    rcases h with ⟨c, hc, hnone⟩
    rcases List.mem_cons.mp hc with h1 | hc2
    · subst h1
      rw [hfc1] at hnone
      exact absurd hnone (by simp)
    · rcases List.mem_cons.mp hc2 with h2 | hrest
      · subst h2
        rw [hfc2] at hnone
        exact absurd hnone (by simp)
      · have hr : hexDecode rest = none := ih ⟨c, hrest, hnone⟩
        rw [hr] at hdec
        exact absurd hdec (by simp)
  | case4 c₁ c₂ rest hfail ih =>
    intro _
    cases h1 : fromHexChar c₁ <;> cases h2 : fromHexChar c₂ <;>
      cases h3 : hexDecode rest <;> simp [hexDecode, h1, h2, h3]
    exact hfail _ _ _ h1 h2 h3

lemma hexDecode_ok : ∀ t : List Char, (∀ c ∈ t, (fromHexChar c).isSome) →
    t.length % 2 = 0 →
    ∃ bs, hexDecode t = some bs ∧ bs.length = t.length / 2 ∧
      ∀ i, i < bs.length →
        bs.getD i 0 = (((fromHexChar (t.getD (2 * i) '0')).getD 0) <<< 4) |||
          ((fromHexChar (t.getD (2 * i + 1) '0')).getD 0) := by
  intro t
  induction t using hexDecode.induct with
  | case1 =>
    intro _ _
    exact ⟨[], rfl, rfl, fun i hi => absurd hi (by simp)⟩
  | case2 c => intro _ hpar; simp at hpar
  | case3 c₁ c₂ rest hi lo bs₀ hdec₀ hfc2 hfc1 ih =>
    intro hall hpar
    have hrest : ∀ c ∈ rest, (fromHexChar c).isSome := fun c hc => hall c (by simp [hc])
    have hpar' : rest.length % 2 = 0 := by simp at hpar; omega
    obtain ⟨bs, hdec, hlen, hidx⟩ := ih hrest hpar'
    refine ⟨((hi <<< 4) ||| lo) :: bs, ?_, ?_, ?_⟩
    · simp [hexDecode, hfc1, hfc2, hdec]
    · simp [hlen]; omega
    · intro i hilt
      cases i with
      | zero => simp [List.getD, hfc1, hfc2]
      | succ j =>
        have h2 : 2 * (j + 1) = 2 * j + 1 + 1 := by ring
        have h2' : 2 * (j + 1) + 1 = (2 * j + 1) + 1 + 1 := by ring
        simp only [List.getD_cons_succ, h2, h2']
        exact hidx j (by simpa using hilt)
  | case4 c₁ c₂ rest hfail ih =>
    intro hall hpar
    have hrest : ∀ c ∈ rest, (fromHexChar c).isSome := fun c hc => hall c (by simp [hc])
    have hpar' : rest.length % 2 = 0 := by simp at hpar; omega
    obtain ⟨bs, hdec, hlen, hidx⟩ := ih hrest hpar'
    obtain ⟨v₁, hv₁⟩ := Option.isSome_iff_exists.mp (hall c₁ (by simp))
    obtain ⟨v₂, hv₂⟩ := Option.isSome_iff_exists.mp (hall c₂ (by simp))
    exact absurd (hfail v₁ v₂ bs hv₁ hv₂ hdec) (by simp)

/-! ### Claim C1 -/

/-- C1: for every 16-byte UUID value `v` (bytes below 256), parsing the
canonical text produced by formatting `v` succeeds and returns `v` exactly:
`Parse (uuidString v) = .ok v`. -/
theorem Parse_uuidString_roundtrip (v : List Nat) (hlen : v.length = 16)
    (hb : ∀ b ∈ v, b < 256) : Parse (uuidString v) = .ok v := by
  have hstr := stripped_uuidString v
  unfold Parse
  rw [hstr, hexDecode_hexEncode v hb]
  simp [hexEncode_length, hlen]

/-- Witness for C1 at the concrete value `550e8400-e29b-41d4-a716-446655440000`. -/
theorem Parse_uuidString_roundtrip_witness :
    Parse (uuidString [0x55, 0x0e, 0x84, 0x00, 0xe2, 0x9b, 0x41, 0xd4,
      0xa7, 0x16, 0x44, 0x66, 0x55, 0x44, 0x00, 0x00]) =
      .ok [0x55, 0x0e, 0x84, 0x00, 0xe2, 0x9b, 0x41, 0xd4,
        0xa7, 0x16, 0x44, 0x66, 0x55, 0x44, 0x00, 0x00] :=
  Parse_uuidString_roundtrip _ (by decide) (by decide)

/-! ### Claim C2 -/

/-- C2: `Parse` strips `-`, `{`, `}` and then: fails with the length-mismatch
`FormatError` when the stripped length is not 32; fails with the invalid-hex
`FormatError` when the stripped length is 32 but some remaining character is
not a hex digit; and succeeds when exactly 32 hex characters remain, decoding
them into 16 bytes in order (hex characters `2*i` and `2*i + 1` become byte
`i`). -/
theorem Parse_strip_hex_cases (s : List Char) :
    ((stripped s).length ≠ 32 →
      Parse s = .error (.invalidLength (stripped s).length)) ∧
    ((stripped s).length = 32 → (∃ c ∈ stripped s, fromHexChar c = none) →
      Parse s = .error .invalidFormat) ∧
    ((stripped s).length = 32 → (∀ c ∈ stripped s, (fromHexChar c).isSome) →
      ∃ bs, Parse s = .ok bs ∧ bs.length = 16 ∧
        ∀ i, i < 16 →
          bs.getD i 0 = (((fromHexChar ((stripped s).getD (2 * i) '0')).getD 0) <<< 4) |||
            ((fromHexChar ((stripped s).getD (2 * i + 1) '0')).getD 0)) := by
  refine ⟨?_, ?_, ?_⟩
  · intro h
    unfold Parse
    rw [if_pos h]
  · intro h32 hbad
    unfold Parse
    rw [if_neg (by simp [h32]), hexDecode_none_of_bad _ hbad]
  · intro h32 hall
    obtain ⟨bs, hdec, hlen, hidx⟩ := hexDecode_ok (stripped s) hall (by omega)
    refine ⟨bs, ?_, by omega, ?_⟩
    · unfold Parse
      rw [if_neg (by simp [h32]), hdec]
    · intro i hi
      exact hidx i (by omega)

/-- Witness for C2: the canonical text of `550e8400-e29b-41d4-a716-446655440000`
strips to 32 hex characters and decodes in order. -/
theorem Parse_strip_hex_cases_witness :
    ∃ bs, Parse ("550e8400-e29b-41d4-a716-446655440000".toList) = .ok bs ∧
      bs.length = 16 ∧
      ∀ i, i < 16 →
        bs.getD i 0 =
          (((fromHexChar ((stripped ("550e8400-e29b-41d4-a716-446655440000".toList)).getD
            (2 * i) '0')).getD 0) <<< 4) |||
          ((fromHexChar ((stripped ("550e8400-e29b-41d4-a716-446655440000".toList)).getD
            (2 * i + 1) '0')).getD 0) :=
  (Parse_strip_hex_cases _).2.2 (by decide) (by decide)

/-! ### Generation lemmas -/

lemma exists_eq_sixteen (r : List Nat) (h : r.length = 16) :
    ∃ a₀ a₁ a₂ a₃ a₄ a₅ a₆ a₇ a₈ a₉ b₀ b₁ b₂ b₃ b₄ b₅,
      r = [a₀, a₁, a₂, a₃, a₄, a₅, a₆, a₇, a₈, a₉, b₀, b₁, b₂, b₃, b₄, b₅] := by
  rcases r with _ | ⟨a₀, r⟩; · simp at h
  rcases r with _ | ⟨a₁, r⟩; · simp at h
  rcases r with _ | ⟨a₂, r⟩; · simp at h
  rcases r with _ | ⟨a₃, r⟩; · simp at h
  rcases r with _ | ⟨a₄, r⟩; · simp at h
  rcases r with _ | ⟨a₅, r⟩; · simp at h
  rcases r with _ | ⟨a₆, r⟩; · simp at h
  rcases r with _ | ⟨a₇, r⟩; · simp at h
  rcases r with _ | ⟨a₈, r⟩; · simp at h
  rcases r with _ | ⟨a₉, r⟩; · simp at h
  rcases r with _ | ⟨b₀, r⟩; · simp at h
  rcases r with _ | ⟨b₁, r⟩; · simp at h
  rcases r with _ | ⟨b₂, r⟩; · simp at h
  rcases r with _ | ⟨b₃, r⟩; · simp at h
  rcases r with _ | ⟨b₄, r⟩; · simp at h
  rcases r with _ | ⟨b₅, r⟩; · simp at h
  rcases r with _ | ⟨c, r⟩
  · exact ⟨a₀, a₁, a₂, a₃, a₄, a₅, a₆, a₇, a₈, a₉, b₀, b₁, b₂, b₃, b₄, b₅, rfl⟩
  · simp at h

lemma v4_byte6_version : ∀ x, x < 256 → (((x &&& 0x0f) ||| 0x40) >>> 4) = 4 := by decide

lemma v4_byte6_low : ∀ x, x < 256 → (((x &&& 0x0f) ||| 0x40) &&& 0x0f) = x &&& 0x0f := by
  decide

lemma v4_byte8_low : ∀ x, x < 256 → (((x &&& 0x3f) ||| 0x80) &&& 0x3f) = x &&& 0x3f := by
  decide

lemma Variant_eq (u : List Nat) (b : Nat) (h : u.getD 8 0 = b) :
    Variant u = (if b &&& 0x80 = 0 then VariantNCS
      else if b &&& 0xc0 = 0x80 then VariantRFC4122
      else if b &&& 0xe0 = 0xc0 then VariantMicrosoft
      else VariantFuture) := by
  unfold Variant
  rw [h]

lemma variant_stamped : ∀ x, x < 256 →
    (if ((x &&& 0x3f) ||| 0x80) &&& 0x80 = 0 then VariantNCS
      else if ((x &&& 0x3f) ||| 0x80) &&& 0xc0 = 0x80 then VariantRFC4122
      else if ((x &&& 0x3f) ||| 0x80) &&& 0xe0 = 0xc0 then VariantMicrosoft
      else VariantFuture) = VariantRFC4122 := by decide

/-! ### Claim C3 -/

/-- C3: the random strategy stamps version `VersionRandom` into the high nibble
of byte 6 and the RFC4122 variant into the top two bits of byte 8, leaving
every other bit of the 16 random bytes unchanged; `New` and `NewV4` use it on
a successful read. -/
theorem generateV4_random_spec (r : List Nat) (hlen : r.length = 16)
    (hb : ∀ b ∈ r, b < 256) :
    Version (generateV4 r) = VersionRandom ∧
    Variant (generateV4 r) = VariantRFC4122 ∧
    (∀ i, i < 16 → i ≠ 6 → i ≠ 8 → (generateV4 r).getD i 0 = r.getD i 0) ∧
    ((generateV4 r).getD 6 0) &&& 0x0f = (r.getD 6 0) &&& 0x0f ∧
    ((generateV4 r).getD 8 0) &&& 0x3f = (r.getD 8 0) &&& 0x3f ∧
    New (.ok r) = generateV4 r ∧
    NewV4 (.ok r) = (generateV4 r, none) := by
  obtain ⟨a₀, a₁, a₂, a₃, a₄, a₅, a₆, a₇, a₈, a₉, b₀, b₁, b₂, b₃, b₄, b₅, rfl⟩ :=
    exists_eq_sixteen r hlen
  have h₆ : a₆ < 256 := hb a₆ (by simp)
  have h₈ : a₈ < 256 := hb a₈ (by simp)
  refine ⟨?_, ?_, ?_, ?_, ?_, rfl, rfl⟩
  · exact v4_byte6_version a₆ h₆
  · exact (Variant_eq
      (generateV4 [a₀, a₁, a₂, a₃, a₄, a₅, a₆, a₇, a₈, a₉, b₀, b₁, b₂, b₃, b₄, b₅])
      ((a₈ &&& 0x3f) ||| 0x80) rfl).trans (variant_stamped a₈ h₈)
  · intro i hi hi6 hi8
    interval_cases i <;> first | rfl | omega
  · exact v4_byte6_low a₆ h₆
  · exact v4_byte8_low a₈ h₈

/-- Witness for C3 at a concrete 16-byte fill. -/
theorem generateV4_random_spec_witness :
    Version (generateV4 [0, 1, 2, 3, 4, 5, 6, 7, 8, 9, 10, 11, 12, 13, 14, 15]) =
      VersionRandom ∧
    Variant (generateV4 [0, 1, 2, 3, 4, 5, 6, 7, 8, 9, 10, 11, 12, 13, 14, 15]) =
      VariantRFC4122 :=
  ⟨(generateV4_random_spec _ (by decide) (by decide)).1,
    (generateV4_random_spec _ (by decide) (by decide)).2.1⟩

lemma land15_eq_mod (y : Nat) : y &&& 15 = y % 16 := by
  have h := Nat.and_pow_two_sub_one_eq_mod y 4
  norm_num at h
  exact h

lemma mod256_land15 (y : Nat) : (y % 256) &&& 15 = y &&& 15 := by
  rw [land15_eq_mod, land15_eq_mod, Nat.mod_mod_of_dvd]
  norm_num

lemma v1_byte6_lownib : ∀ z, z < 256 → (((z &&& 0x0f) ||| 0x10) &&& 0x0f) = z &&& 0x0f := by
  decide

lemma v1_byte6_version : ∀ z, z < 256 → (((z &&& 0x0f) ||| 0x10) >>> 4) = 1 := by decide

/-! ### Claim C6 -/

/-- C6: the time-based strategy writes the low 48 bits of the timestamp into
bytes 0–5 least-significant byte first, puts bits 48–51 of the timestamp into
the low nibble of byte 6 with the high nibble forced to the time-based version
tag, forces byte 8's top two bits to the RFC4122 variant, and keeps every
other byte of the random baseline. -/
theorem generateV1_time_spec (r : List Nat) (now : Nat) (hlen : r.length = 16)
    (hb : ∀ b ∈ r, b < 256) :
    (∀ i, i < 6 → (generateV1 r now).getD i 0 = (now >>> (8 * i)) % 256) ∧
    ((generateV1 r now).getD 6 0) &&& 0x0f = (now >>> 48) &&& 0x0f ∧
    Version (generateV1 r now) = VersionTimeBased ∧
    Variant (generateV1 r now) = VariantRFC4122 ∧
    ((generateV1 r now).getD 8 0) &&& 0x3f = (r.getD 8 0) &&& 0x3f ∧
    (generateV1 r now).getD 7 0 = r.getD 7 0 ∧
    (∀ i, 9 ≤ i → i < 16 → (generateV1 r now).getD i 0 = r.getD i 0) := by
  obtain ⟨a₀, a₁, a₂, a₃, a₄, a₅, a₆, a₇, a₈, a₉, b₀, b₁, b₂, b₃, b₄, b₅, rfl⟩ :=
    exists_eq_sixteen r hlen
  have h₈ : a₈ < 256 := hb a₈ (by simp)
  have hz : (now >>> 48) % 256 < 256 := Nat.mod_lt _ (by norm_num)
  refine ⟨?_, ?_, ?_, ?_, ?_, rfl, ?_⟩
  · intro i hi
    interval_cases i <;> rfl
  · show ((((now >>> 48) % 256) &&& 0x0f) ||| 0x10) &&& 0x0f = (now >>> 48) &&& 0x0f
    rw [v1_byte6_lownib _ hz, mod256_land15]
  · exact v1_byte6_version _ hz
  · exact (Variant_eq
      (generateV1 [a₀, a₁, a₂, a₃, a₄, a₅, a₆, a₇, a₈, a₉, b₀, b₁, b₂, b₃, b₄, b₅] now)
      ((a₈ &&& 0x3f) ||| 0x80) rfl).trans (variant_stamped a₈ h₈)
  · exact v4_byte8_low a₈ h₈
  · intro i h9 h16
    interval_cases i <;> rfl

/-- Witness for C6 at a concrete baseline and timestamp. -/
theorem generateV1_time_spec_witness :
    Version (generateV1 [0, 1, 2, 3, 4, 5, 6, 7, 8, 9, 10, 11, 12, 13, 14, 15]
      81985529216486895) = VersionTimeBased ∧
    Variant (generateV1 [0, 1, 2, 3, 4, 5, 6, 7, 8, 9, 10, 11, 12, 13, 14, 15]
      81985529216486895) = VariantRFC4122 :=
  ⟨(generateV1_time_spec _ 81985529216486895 (by decide) (by decide)).2.2.1,
    (generateV1_time_spec _ 81985529216486895 (by decide) (by decide)).2.2.2.1⟩

/-! ### Claim C7 -/

/-- C7: formatting always yields 36 characters: five groups of lowercase hex
digits of sizes 8, 4, 4, 4 and 12, joined by single hyphens.  `uuidString` is
a function of the bytes alone, so the pure-function part of the claim is
inherent in the definition. -/
theorem uuidString_canonical_format (v : List Nat) (hlen : v.length = 16) :
    (uuidString v).length = 36 ∧
    ∃ g₁ g₂ g₃ g₄ g₅ : List Char,
      uuidString v = g₁ ++ ['-'] ++ g₂ ++ ['-'] ++ g₃ ++ ['-'] ++ g₄ ++ ['-'] ++ g₅ ∧
      g₁.length = 8 ∧ g₂.length = 4 ∧ g₃.length = 4 ∧ g₄.length = 4 ∧ g₅.length = 12 ∧
      (∀ c, (c ∈ g₁ ∨ c ∈ g₂ ∨ c ∈ g₃ ∨ c ∈ g₄ ∨ c ∈ g₅) → c ∈ hexCharList) := by
  have l₁ : (hexEncode (v.take 4)).length = 8 := by
    rw [hexEncode_length, List.length_take, hlen]; rfl
  have l₂ : (hexEncode ((v.drop 4).take 2)).length = 4 := by
    rw [hexEncode_length, List.length_take, List.length_drop, hlen]; rfl
  have l₃ : (hexEncode ((v.drop 6).take 2)).length = 4 := by
    rw [hexEncode_length, List.length_take, List.length_drop, hlen]; rfl
  have l₄ : (hexEncode ((v.drop 8).take 2)).length = 4 := by
    rw [hexEncode_length, List.length_take, List.length_drop, hlen]; rfl
  have l₅ : (hexEncode (v.drop 10)).length = 12 := by
    rw [hexEncode_length, List.length_drop, hlen]
  constructor
  · unfold uuidString
    simp only [List.length_append, l₁, l₂, l₃, l₄, l₅, List.length_cons, List.length_nil]
  · refine ⟨hexEncode (v.take 4), hexEncode ((v.drop 4).take 2),
      hexEncode ((v.drop 6).take 2), hexEncode ((v.drop 8).take 2),
      hexEncode (v.drop 10), ?_, l₁, l₂, l₃, l₄, l₅, ?_⟩
    · unfold uuidString
      simp [List.append_assoc]
    · intro c hc
      rcases hc with h | h | h | h | h <;> exact mem_hexEncode h

/-- Witness for C7 at a concrete value. -/
theorem uuidString_canonical_format_witness :
    (uuidString [0x55, 0x0e, 0x84, 0x00, 0xe2, 0x9b, 0x41, 0xd4,
      0xa7, 0x16, 0x44, 0x66, 0x55, 0x44, 0x00, 0x00]).length = 36 :=
  (uuidString_canonical_format _ (by decide)).1

/-! ### Claim C8 -/

/-- C8: the factory hands back a generator dispatching on the requested tag:
the random tag runs the random strategy, the time-based tag runs the
time-based strategy, and every other tag silently degrades to the random
strategy, producing no error of its own. -/
theorem NewGenerator_dispatch (read : Except RandErr (List Nat)) (now : Nat) (v : Nat) :
    (NewGenerator VersionRandom).Generate read now = generateV4Go read ∧
    (NewGenerator VersionTimeBased).Generate read now = generateV1Go read now ∧
    (v ≠ VersionRandom → v ≠ VersionTimeBased →
      (NewGenerator v).Generate read now = generateV4Go read) ∧
    (∀ rr, v ≠ VersionRandom → v ≠ VersionTimeBased →
      ((NewGenerator v).Generate (.ok rr) now).2 = none) := by
  refine ⟨rfl, rfl, ?_, ?_⟩
  · intro h4 h1
    simp only [UUIDGenerator.Generate, NewGenerator]
    rw [if_neg h4, if_neg h1]
  · intro rr h4 h1
    simp only [UUIDGenerator.Generate, NewGenerator]
    rw [if_neg h4, if_neg h1]
    rfl

/-- Witness for C8: an unrecognized tag (9) degrades to the random strategy. -/
theorem NewGenerator_dispatch_witness :
    (NewGenerator 9).Generate (.ok (List.replicate 16 0)) 0 =
      generateV4Go (.ok (List.replicate 16 0)) :=
  (NewGenerator_dispatch (.ok (List.replicate 16 0)) 0 9).2.2.1 (by decide) (by decide)

/-! ### Compare lemmas -/

lemma Compare_range : ∀ u v : List Nat, Compare u v = -1 ∨ Compare u v = 0 ∨ Compare u v = 1 := by
  intro u
  induction u with
  | nil => intro v; cases v <;> simp [Compare]
  | cons x xs ih =>
    intro v
    cases v with
    | nil => simp [Compare]
    | cons y ys =>
      simp only [Compare]
      split_ifs
      · left; rfl
      · right; right; rfl
      · exact ih ys

lemma Compare_eq_zero_iff : ∀ u v : List Nat, u.length = v.length →
    (Compare u v = 0 ↔ u = v) := by
  intro u
  induction u with
  | nil =>
    intro v h
    cases v with
    | nil => simp [Compare]
    | cons y ys => simp at h
  | cons x xs ih =>
    intro v h
    cases v with
    | nil => simp at h
    | cons y ys =>
      have h' : xs.length = ys.length := by simpa using h
      simp only [Compare]
      split_ifs with h1 h2
      · simp only [List.cons.injEq]
        constructor
        · intro habs; exact absurd habs (by decide)
        · rintro ⟨rfl, -⟩; omega
      · simp only [List.cons.injEq]
        constructor
        · intro habs; exact absurd habs (by decide)
        · rintro ⟨rfl, -⟩; omega
      · have hxy : x = y := by omega
        subst hxy
        rw [ih ys h']
        simp

lemma Compare_antisymm : ∀ u v : List Nat, Compare u v = -(Compare v u) := by
  intro u
  induction u with
  | nil => intro v; cases v <;> simp [Compare]
  | cons x xs ih =>
    intro v
    cases v with
    | nil => simp [Compare]
    | cons y ys =>
      simp only [Compare]
      rcases Nat.lt_trichotomy x y with h | h | h
      · rw [if_pos h, if_neg (by omega : ¬ y < x), if_pos (by omega : y > x)]
      · rw [if_neg (by omega : ¬ x < y), if_neg (by omega : ¬ x > y),
          if_neg (by omega : ¬ y < x), if_neg (by omega : ¬ y > x)]
        exact ih ys
      · rw [if_neg (by omega : ¬ x < y), if_pos (by omega : x > y),
          if_pos (by omega : y < x)]
        rfl

lemma Compare_le_trans : ∀ u v w : List Nat, u.length = v.length → v.length = w.length →
    Compare u v ≤ 0 → Compare v w ≤ 0 → Compare u w ≤ 0 := by
  intro u
  induction u with
  | nil =>
    intro v w _ _ _ _
    cases w <;> simp [Compare]
  | cons x xs ih =>
    intro v w huv hvw h1 h2
    cases v with
    | nil => simp at huv
    | cons y ys =>
      cases w with
      | nil => simp at hvw
      | cons z zs =>
        have huv' : xs.length = ys.length := by simpa using huv
        have hvw' : ys.length = zs.length := by simpa using hvw
        simp only [Compare] at h1 h2 ⊢
        rcases Nat.lt_trichotomy x y with hxy | hxy | hxy
        · rcases Nat.lt_trichotomy y z with hyz | hyz | hyz
          · rw [if_pos (by omega : x < z)]; norm_num
          · rw [if_pos (by omega : x < z)]; norm_num
          · rw [if_neg (by omega : ¬ y < z), if_pos (by omega : y > z)] at h2; omega
        · rw [if_neg (by omega : ¬ x < y), if_neg (by omega : ¬ x > y)] at h1
          rcases Nat.lt_trichotomy y z with hyz | hyz | hyz
          · rw [if_pos (by omega : x < z)]; norm_num
          · rw [if_neg (by omega : ¬ y < z), if_neg (by omega : ¬ y > z)] at h2
            rw [if_neg (by omega : ¬ x < z), if_neg (by omega : ¬ x > z)]
            exact ih ys zs huv' hvw' h1 h2
          · rw [if_neg (by omega : ¬ y < z), if_pos (by omega : y > z)] at h2; omega
        · rw [if_neg (by omega : ¬ x < y), if_pos (by omega : x > y)] at h1; omega

/-! ### Claim C9 -/

/-- C9: `Compare` is lexicographic over the 16 bytes and a total order:
its value is in `{-1, 0, 1}`, it is zero exactly on byte-wise equal values,
swapping the arguments negates it, and `≤ 0` is transitive. -/
theorem Compare_total_order (u v w : List Nat) (hu : u.length = 16) (hv : v.length = 16)
    (hw : w.length = 16) :
    (Compare u v = -1 ∨ Compare u v = 0 ∨ Compare u v = 1) ∧
    (Compare u v = 0 ↔ u = v) ∧
    Compare u v = -(Compare v u) ∧
    (Compare u v ≤ 0 → Compare v w ≤ 0 → Compare u w ≤ 0) :=
  ⟨Compare_range u v, Compare_eq_zero_iff u v (by omega), Compare_antisymm u v,
    Compare_le_trans u v w (by omega) (by omega)⟩

/-- Witness for C9: transitivity at three concrete values. -/
theorem Compare_total_order_witness :
    Compare [0, 0, 0, 0, 0, 0, 0, 0, 0, 0, 0, 0, 0, 0, 0, 1]
      [0, 0, 0, 0, 0, 0, 0, 0, 0, 0, 0, 0, 0, 0, 0, 3] ≤ 0 :=
  (Compare_total_order [0, 0, 0, 0, 0, 0, 0, 0, 0, 0, 0, 0, 0, 0, 0, 1]
    [0, 0, 0, 0, 0, 0, 0, 0, 0, 0, 0, 0, 0, 0, 0, 2]
    [0, 0, 0, 0, 0, 0, 0, 0, 0, 0, 0, 0, 0, 0, 0, 3]
    (by decide) (by decide) (by decide)).2.2.2 (by decide) (by decide)

/-! ### Claim C10 -/

/-- C10: whenever `UnmarshalJSON`, `UnmarshalText` or `Scan` returns an error,
the receiver's bytes are left unchanged; the stored value is only overwritten
on success. -/
theorem unmarshal_preserves_on_error (u : List Nat) (data : Except JSONErr (List Char))
    (text : List Char) (inp : ScanInput) :
    ((UnmarshalJSON u data).1 ≠ none → (UnmarshalJSON u data).2 = u) ∧
    ((UnmarshalText u text).1 ≠ none → (UnmarshalText u text).2 = u) ∧
    ((Scan u inp).1 ≠ none → (Scan u inp).2 = u) := by
  refine ⟨?_, ?_, ?_⟩
  · cases data with
    | error e => intro _; rfl
    | ok s =>
      cases hp : Parse s with
      | error e => intro _; simp [UnmarshalJSON, hp]
      | ok p =>
        intro h
        exact absurd (by simp [UnmarshalJSON, hp]) h
  · cases hp : Parse text with
    | error e => intro _; simp [UnmarshalText, hp]
    | ok p =>
      intro h
      exact absurd (by simp [UnmarshalText, hp]) h
  · cases inp with
    | nullValue => intro h; exact absurd rfl h
    | str s =>
      cases hp : Parse s with
      | error e => intro _; simp [Scan, hp]
      | ok p =>
        intro h
        exact absurd (by simp [Scan, hp]) h
    | bytes b =>
      by_cases hl : b.length = 16
      · intro h
        exact absurd (by simp [Scan, hl]) h
      · cases hp : Parse (bytesToChars b) with
        | error e => intro _; simp [Scan, hl, hp]
        | ok p =>
          intro h
          exact absurd (by simp [Scan, hl, hp]) h
    | other => intro _; rfl

/-- Witness for C10: a failing JSON unmarshal leaves the receiver unchanged. -/
theorem unmarshal_preserves_on_error_witness :
    (UnmarshalJSON [9, 9, 9, 9, 9, 9, 9, 9, 9, 9, 9, 9, 9, 9, 9, 9]
      (.error .notAString)).2 = [9, 9, 9, 9, 9, 9, 9, 9, 9, 9, 9, 9, 9, 9, 9, 9] :=
  (unmarshal_preserves_on_error [9, 9, 9, 9, 9, 9, 9, 9, 9, 9, 9, 9, 9, 9, 9, 9]
    (.error .notAString) [] .other).1 (by decide)

/-! ### Claim C4 -/

/-- C4 counterexample: a byte slice that is not 16 bytes long does not fail
with the unsupported-input error; `Scan` converts it to a string and parses
it.  The 36-byte canonical text, given as bytes, is accepted and decoded. -/
theorem Scan_bytes_parse_fallback :
    ("550e8400-e29b-41d4-a716-446655440000".toList.map Char.toNat).length = 36 ∧
    Scan NilUUID (.bytes ("550e8400-e29b-41d4-a716-446655440000".toList.map Char.toNat)) =
      (none, [0x55, 0x0e, 0x84, 0x00, 0xe2, 0x9b, 0x41, 0xd4,
        0xa7, 0x16, 0x44, 0x66, 0x55, 0x44, 0x00, 0x00]) := by
  constructor
  · decide
  · decide

/-- C4 (amended): `Scan` maps a nil input to the nil UUID without error,
parses a string input, copies a 16-byte slice directly, parses a byte slice
of any other length as text (surfacing the `Parse` error on failure), and
fails with the unsupported-input error for every other input type. -/
theorem Scan_dispatch_spec (u : List Nat) (s : List Char) (b : List Nat) :
    Scan u .nullValue = (none, NilUUID) ∧
    (∀ p, Parse s = .ok p → Scan u (.str s) = (none, p)) ∧
    (∀ e, Parse s = .error e → Scan u (.str s) = (some (.format e), u)) ∧
    (b.length = 16 → Scan u (.bytes b) = (none, b)) ∧
    (b.length ≠ 16 → ∀ p, Parse (bytesToChars b) = .ok p →
      Scan u (.bytes b) = (none, p)) ∧
    (b.length ≠ 16 → ∀ e, Parse (bytesToChars b) = .error e →
      Scan u (.bytes b) = (some (.format e), u)) ∧
    Scan u .other = (some .unsupported, u) := by
  refine ⟨rfl, ?_, ?_, ?_, ?_, ?_, rfl⟩
  · intro p hp; simp [Scan, hp]
  · intro e he; simp [Scan, he]
  · intro hl; simp [Scan, hl]
  · intro hl p hp; simp [Scan, hl, hp]
  · intro hl e he; simp [Scan, hl, he]

/-- Witness for the amended C4: a 16-byte slice is copied directly. -/
theorem Scan_dispatch_spec_witness :
    Scan [9, 9, 9, 9, 9, 9, 9, 9, 9, 9, 9, 9, 9, 9, 9, 9]
      (.bytes [0, 1, 2, 3, 4, 5, 6, 7, 8, 9, 10, 11, 12, 13, 14, 15]) =
      (none, [0, 1, 2, 3, 4, 5, 6, 7, 8, 9, 10, 11, 12, 13, 14, 15]) :=
  (Scan_dispatch_spec [9, 9, 9, 9, 9, 9, 9, 9, 9, 9, 9, 9, 9, 9, 9, 9] []
    [0, 1, 2, 3, 4, 5, 6, 7, 8, 9, 10, 11, 12, 13, 14, 15]).2.2.2.1 (by decide)

/-! ### Claim C5 -/

/-- C5 counterexample: `New` is a generation path that swallows the random
source's failure — on a failing read it returns the zero UUID and surfaces no
error (its return type carries none), contradicting the claim that no
generation path swallows the error or substitutes a non-random value. -/
theorem New_swallows_error : New (.error (.exhausted 0)) = NilUUID := rfl

/-- C5 (amended): every fallible generation operation — `NewV4`, `NewV1` and
`UUIDGenerator.Generate` — propagates a failure of the random source to its
caller unchanged; the convenience wrapper `New`, however, discards the error
and returns the zero-initialised buffer. -/
theorem generation_error_propagation (e : RandErr) (now : Nat) (v : Nat) :
    NewV4 (.error e) = (NilUUID, some e) ∧
    NewV1 (.error e) now = (NilUUID, some e) ∧
    ((NewGenerator v).Generate (.error e) now).2 = some e ∧
    New (.error e) = NilUUID := by
  refine ⟨rfl, rfl, ?_, rfl⟩
  simp only [UUIDGenerator.Generate, NewGenerator]
  split_ifs <;> rfl

end UUIDSpec
